import Mathlib

/-!
Shallow embedding of the PDAL outlier filter (filters/OutlierFilter.cpp and
filters/OutlierFilter.hpp) and proofs about its classification behaviour.

Modelling conventions:
- Machine doubles are modelled as rationals; division follows the Lean
  convention that x / 0 = 0, and the spots where the C++ code can divide by
  zero are analysed explicitly.
- The std::sqrt function is external numeric code and is a parameter
  `sqrtQ : Q -> Q` of every definition that needs it; the theorems below hold
  for every choice of that parameter.
- The KD3Index spatial index is an external collaborator.  Its two queries are
  parameters: `radiusIds idx r` is the id list returned by `index.radius`, and
  `knnSqr idx count` is the squared-distance list filled by `index.knnSearch`
  (the query point itself first, at distance 0).
- The worker threads pop indices from a FIFO deque and each index is processed
  exactly once, independently of the interleaving; the embedding processes the
  indices in deque order 0, 1, ..., np-1.  For processStatistical this is
  exact up to the order of result writes, which land in distinct slots of the
  distances vector.
- A PointView is modelled by its per-point Classification attribute, a
  `List Nat` whose length is the point count; `run` returns `none` when the
  returned PointViewSet is empty and `some cls` when it holds the single view
  with attribute list `cls`.
-/

namespace OutlierFilter

/-- Mirror of `struct Indices { PointIdList inliers; PointIdList outliers; }`
from OutlierFilter.hpp. -/
structure Indices where
  inliers : List Nat
  outliers : List Nat
deriving DecidableEq

/-- The C++ cast `size_t(m_minK)` applied to the int member `m_minK`
(64-bit unsigned wraparound). -/
def sizeTCast (i : Int) : Nat :=
  (i % (2 : Int) ^ 64).toNat

/-- One iteration of the loops that push an index into `inliers` or
`outliers` according to a boolean test (lines 136-139 and 226-232 of
OutlierFilter.cpp share this shape). -/
def classifyStep (pred : Nat → Bool) (acc : Indices) (idx : Nat) : Indices :=
  if pred idx then { acc with inliers := acc.inliers ++ [idx] }
  else { acc with outliers := acc.outliers ++ [idx] }

/-- Running the classification loop over all point ids 0..np-1 starting from
empty lists. -/
def classifyAll (pred : Nat → Bool) (np : Nat) : Indices :=
  (List.range np).foldl (classifyStep pred) { inliers := [], outliers := [] }

/-- Embedding of `OutlierFilter::processRadius`: every index is popped from
the deque exactly once, `index.radius(idx, m_radius)` is asked for the
neighbour ids, and idx goes to `inliers` iff `ids.size() > size_t(m_minK)`. -/
def processRadius (radiusIds : Nat → ℚ → List Nat) (m_radius : ℚ) (m_minK : Int)
    (np : Nat) : Indices :=
  classifyAll (fun idx => decide ((radiusIds idx m_radius).length > sizeTCast m_minK)) np

/-- One iteration of the local-mean loop of `processStatistical`
(lines 192-195): with j values folded in so far and running mean m, the next
distance d updates the state to (j+1, m + (d - m) / (j+1)). -/
def localMeanStep (acc : Nat × ℚ) (d : ℚ) : Nat × ℚ :=
  (acc.1 + 1, acc.2 + (d - acc.2) / ((acc.1 : ℚ) + 1))

/-- The local running mean of a list of distances, starting from
`distances[idx]` which the code has initialised to 0. -/
def localMean (ds : List ℚ) : ℚ :=
  (ds.foldl localMeanStep (0, 0)).2

/-- The per-point local statistic of `processStatistical`: the loop runs j
from 1 to count-1 over `sqrt(sqr_dists[j])`, skipping the self entry at
position 0. -/
def localMeanOfSqr (sqrtQ : ℚ → ℚ) (sqr_dists : List ℚ) : ℚ :=
  localMean ((sqr_dists.drop 1).map sqrtQ)

/-- The running state n, M1, M2 of the sequential global fold of
`processStatistical` (lines 208-219). -/
@[ext]
structure GlobalAcc where
  n : Nat
  M1 : ℚ
  M2 : ℚ
deriving DecidableEq

/-- One iteration of the global fold (lines 211-219 of OutlierFilter.cpp):
n1 = n; n = n + 1; delta = d - M1; delta_n = delta / n; M1 += delta_n;
M2 += delta * delta_n * n1. -/
def globalStep (acc : GlobalAcc) (d : ℚ) : GlobalAcc :=
  let n1 : Nat := acc.n
  let n : Nat := acc.n + 1
  let delta : ℚ := d - acc.M1
  let delta_n : ℚ := delta / (n : ℚ)
  { n := n, M1 := acc.M1 + delta_n, M2 := acc.M2 + delta * delta_n * (n1 : ℚ) }

/-- The full global fold over the distances vector, from n = 0, M1 = 0,
M2 = 0. -/
def globalFold (ds : List ℚ) : GlobalAcc :=
  ds.foldl globalStep { n := 0, M1 := 0, M2 := 0 }

/-- Line 221: `variance = M2 / (n - 1.0)`; the subtraction is on doubles, so
for n = 0 the divisor is -1 and for n = 1 it is 0. -/
def variance (ds : List ℚ) : ℚ :=
  (globalFold ds).M2 / (((globalFold ds).n : ℚ) - 1)

/-- Lines 220-224: `threshold = mean + m_multiplier * stdev` with
`stdev = sqrt(variance)`. -/
def threshold (sqrtQ : ℚ → ℚ) (m_multiplier : ℚ) (ds : List ℚ) : ℚ :=
  (globalFold ds).M1 + m_multiplier * sqrtQ (variance ds)

/-- The distances vector after the parallel phase of `processStatistical`:
slot idx holds the local mean for point idx, computed from the
`m_meanK + 1` nearest neighbours (the extra one being the query point
itself, line 166). -/
def statDistances (sqrtQ : ℚ → ℚ) (knnSqr : Nat → Nat → List ℚ) (m_meanK : Nat)
    (np : Nat) : List ℚ :=
  (List.range np).map (fun idx => localMeanOfSqr sqrtQ (knnSqr idx (m_meanK + 1)))

/-- Embedding of `OutlierFilter::processStatistical`: parallel local-mean
phase, sequential global fold, then the classification pass comparing
`distances[i] < threshold` for i = 0..np-1. -/
def processStatistical (sqrtQ : ℚ → ℚ) (knnSqr : Nat → Nat → List ℚ)
    (m_meanK : Nat) (m_multiplier : ℚ) (np : Nat) : Indices :=
  let ds := statDistances sqrtQ knnSqr m_meanK np
  classifyAll (fun i => decide (ds.getD i 0 < threshold sqrtQ m_multiplier ds)) np

/-- Mirror of `Utils::iequals`, the case-insensitive method-name comparison:
the two character sequences agree after lowercasing. -/
def iequals (a b : String) : Bool :=
  a.data.map Char.toLower == b.data.map Char.toLower

/-- Lines 276-277: set the Classification attribute of every outlier id to
`m_class`, leaving all other points untouched. -/
def applyOutliers (view : List Nat) (outliers : List Nat) (m_class : Nat) : List Nat :=
  outliers.foldl (fun v i => v.set i m_class) view

/-- Lines 261-289 of `OutlierFilter::run`: empty inliers means warn and pass
the view through unchanged; a nonempty outlier list is relabelled with
`m_class`; empty outliers means warn and pass through unchanged. -/
def runIndices (view : List Nat) (m_class : Nat) (indices : Indices) : Option (List Nat) :=
  if indices.inliers = [] then some view
  else if indices.outliers ≠ [] then some (applyOutliers view indices.outliers m_class)
  else some view

/-- Embedding of `OutlierFilter::run` (lines 237-292): an empty view returns
an empty view set; otherwise the method name selects a classifier
case-insensitively, an unrecognised name passes the view through with a
warning, and the resulting index partition is applied by `runIndices`. -/
def run (sqrtQ : ℚ → ℚ) (knnSqr : Nat → Nat → List ℚ)
    (radiusIds : Nat → ℚ → List Nat) (m_method : String) (m_minK : Int)
    (m_radius : ℚ) (m_meanK : Nat) (m_multiplier : ℚ) (m_class : Nat)
    (view : List Nat) : Option (List Nat) :=
  if view.length = 0 then none
  else if iequals m_method "statistical" then
    runIndices view m_class
      (processStatistical sqrtQ knnSqr m_meanK m_multiplier view.length)
  else if iequals m_method "radius" then
    runIndices view m_class (processRadius radiusIds m_radius m_minK view.length)
  else some view

/-! Characterisation of the classification loops. -/

theorem classify_foldl (pred : Nat → Bool) (l : List Nat) (I O : List Nat) :
    l.foldl (classifyStep pred) { inliers := I, outliers := O } =
      { inliers := I ++ l.filter pred,
        outliers := O ++ l.filter (fun i => !(pred i)) : Indices } := by
  induction l generalizing I O with
  | nil => simp
  | cons a t ih =>
    by_cases h : pred a
    · simp [classifyStep, h, ih, List.filter_cons]
    · simp [classifyStep, h, ih, List.filter_cons]

theorem classifyAll_eq (pred : Nat → Bool) (np : Nat) :
    classifyAll pred np =
      { inliers := (List.range np).filter pred,
        outliers := (List.range np).filter (fun i => !(pred i)) } := by
  simpa [classifyAll] using classify_foldl pred (List.range np) [] []

theorem count_range_eq (np i : Nat) :
    (List.range np).count i = if i < np then 1 else 0 := by
  by_cases hi : i < np
  · rw [if_pos hi]
    exact List.count_eq_one_of_mem (List.nodup_range np) (List.mem_range.2 hi)
  · rw [if_neg hi]
    exact List.count_eq_zero_of_not_mem (fun hmem => hi (List.mem_range.1 hmem))

theorem classifyAll_inliers (pred : Nat → Bool) (np : Nat) :
    (classifyAll pred np).inliers = (List.range np).filter pred := by
  simp [classifyAll_eq]

theorem classifyAll_outliers (pred : Nat → Bool) (np : Nat) :
    (classifyAll pred np).outliers = (List.range np).filter (fun i => !(pred i)) := by
  simp [classifyAll_eq]

theorem classifyAll_count (pred : Nat → Bool) (np i : Nat) :
    ((classifyAll pred np).inliers ++ (classifyAll pred np).outliers).count i
      = if i < np then 1 else 0 := by
  rw [classifyAll_inliers, classifyAll_outliers, List.count_append]
  by_cases hp : pred i
  · have e2 : List.count i (List.filter (fun j => !(pred j)) (List.range np)) = 0 :=
      List.count_eq_zero_of_not_mem
        (fun hmem => by simpa [hp] using (List.mem_filter.1 hmem).2)
    rw [e2, List.count_filter hp, count_range_eq]
    simp
  · have hp' : pred i = false := by simpa using hp
    have e1 : List.count i (List.filter pred (List.range np)) = 0 :=
      List.count_eq_zero_of_not_mem
        (fun hmem => by simpa [hp'] using (List.mem_filter.1 hmem).2)
    rw [e1, List.count_filter (p := fun j => !(pred j)) (by simp [hp']),
      count_range_eq]
    simp

theorem classifyAll_mem_inliers (pred : Nat → Bool) (np i : Nat) :
    i ∈ (classifyAll pred np).inliers ↔ i < np ∧ pred i = true := by
  rw [classifyAll_eq]
  simp [List.mem_filter, List.mem_range]

theorem classifyAll_mem_outliers (pred : Nat → Bool) (np i : Nat) :
    i ∈ (classifyAll pred np).outliers ↔ i < np ∧ pred i = false := by
  rw [classifyAll_eq]
  simp [List.mem_filter, List.mem_range]

/-! Closed forms of the two incremental folds. -/

theorem localMean_foldl (ds : List ℚ) :
    ds.foldl localMeanStep (0, 0) = (ds.length, ds.sum / (ds.length : ℚ)) := by
  induction ds using List.reverseRecOn with
  | nil => simp
  | append_singleton l x ih =>
    rw [List.foldl_append, ih]
    rcases Nat.eq_zero_or_pos l.length with h0 | hpos
    · have hl : l = [] := List.length_eq_zero.1 h0
      subst hl
      simp [localMeanStep]
    · have hne : (l.length : ℚ) ≠ 0 := (Nat.cast_pos.2 hpos).ne'
      have hne1 : (l.length : ℚ) + 1 ≠ 0 := by positivity
      simp only [List.foldl_cons, List.foldl_nil, localMeanStep, List.sum_append,
        List.length_append, List.sum_cons, List.sum_nil, List.length_cons,
        List.length_nil, Prod.mk.injEq]
      refine ⟨trivial, ?_⟩
      push_cast
      field_simp
      ring

/-- The sum of squares of a list of rationals. -/
def sumSq (xs : List ℚ) : ℚ :=
  (xs.map (fun x => x ^ 2)).sum

theorem globalFold_closed (xs : List ℚ) :
    globalFold xs =
      { n := xs.length,
        M1 := xs.sum / (xs.length : ℚ),
        M2 := sumSq xs - xs.sum ^ 2 / (xs.length : ℚ) } := by
  induction xs using List.reverseRecOn with
  | nil => simp [globalFold, sumSq]
  | append_singleton l x ih =>
    have hstep : globalFold (l ++ [x]) = globalStep (globalFold l) x := by
      simp [globalFold, List.foldl_append]
    rw [hstep, ih]
    rcases Nat.eq_zero_or_pos l.length with h0 | hpos
    · have hl : l = [] := List.length_eq_zero.1 h0
      subst hl
      simp [globalStep, sumSq]
    · have hne : (l.length : ℚ) ≠ 0 := (Nat.cast_pos.2 hpos).ne'
      have hne1 : (l.length : ℚ) + 1 ≠ 0 := by positivity
      simp only [globalStep, GlobalAcc.mk.injEq, List.sum_append, List.length_append,
        List.sum_cons, List.sum_nil, List.length_cons, List.length_nil, sumSq,
        List.map_append, List.map_cons, List.map_nil]
      refine ⟨trivial, ?_, ?_⟩
      · push_cast
        field_simp
        ring
      · push_cast
        field_simp
        ring

theorem sum_sq_sub (xs : List ℚ) (c : ℚ) :
    (xs.map (fun x => (x - c) ^ 2)).sum
      = sumSq xs - 2 * c * xs.sum + (xs.length : ℚ) * c ^ 2 := by
  induction xs with
  | nil => simp [sumSq]
  | cons a t ih =>
    simp only [List.map_cons, List.sum_cons, ih, sumSq, List.length_cons]
    push_cast
    ring

theorem classifyAll_sorted (pred : Nat → Bool) (np : Nat) :
    List.Sorted (· < ·) (classifyAll pred np).inliers ∧
    List.Sorted (· < ·) (classifyAll pred np).outliers := by
  rw [classifyAll_inliers, classifyAll_outliers]
  exact ⟨(List.sorted_lt_range np).filter _, (List.sorted_lt_range np).filter _⟩

/-- C1: for every input view of N points, both processRadius and
processStatistical return an Indices value in which every point index below N
appears exactly once across the two lists inliers and outliers, and no other
index appears at all: the partition is disjoint and covers 0..N-1. -/
theorem processRadius_processStatistical_partition
    (radiusIds : Nat → ℚ → List Nat) (m_radius : ℚ) (m_minK : Int)
    (sqrtQ : ℚ → ℚ) (knnSqr : Nat → Nat → List ℚ) (m_meanK : Nat)
    (m_multiplier : ℚ) (np i : Nat) :
    ((processRadius radiusIds m_radius m_minK np).inliers ++
        (processRadius radiusIds m_radius m_minK np).outliers).count i
      = (if i < np then 1 else 0) ∧
    ((processStatistical sqrtQ knnSqr m_meanK m_multiplier np).inliers ++
        (processStatistical sqrtQ knnSqr m_meanK m_multiplier np).outliers).count i
      = (if i < np then 1 else 0) := by
  exact ⟨classifyAll_count _ np i, classifyAll_count _ np i⟩

/-- C2: in the radius method, a point idx whose radius query returns c ids
(the query point itself included in the count) is an inlier exactly when
c > minK, and a count exactly equal to minK makes it an outlier; this holds
for every radius and every minK in the nonnegative range the spec admits for
the int-typed option. -/
theorem processRadius_inlier_iff_count_gt_minK
    (radiusIds : Nat → ℚ → List Nat) (m_radius : ℚ) (m_minK : Int)
    (np idx : Nat) (hidx : idx < np) (h0 : 0 ≤ m_minK)
    (h64 : m_minK < 2 ^ 64) :
    (idx ∈ (processRadius radiusIds m_radius m_minK np).inliers ↔
      ((radiusIds idx m_radius).length : Int) > m_minK) ∧
    (((radiusIds idx m_radius).length : Int) = m_minK →
      idx ∈ (processRadius radiusIds m_radius m_minK np).outliers) := by
  have hcast : sizeTCast m_minK = m_minK.toNat := by
    unfold sizeTCast
    rw [Int.emod_eq_of_lt h0 h64]
  constructor
  · rw [processRadius, classifyAll_mem_inliers]
    simp only [hidx, true_and, decide_eq_true_eq, hcast, gt_iff_lt]
    omega
  · intro heq
    rw [processRadius, classifyAll_mem_outliers]
    simp only [hidx, true_and, decide_eq_false_iff_not, hcast, not_lt]
    omega

/-- Witness for C2: one point whose radius query returns exactly three ids
while minK = 3; the tie makes the point an outlier. -/
theorem processRadius_inlier_iff_count_gt_minK_witness :
    (0 ∈ (processRadius (fun _ _ => [0, 1, 2]) 1 3 1).inliers ↔
        (([0, 1, 2] : List Nat).length : Int) > 3) ∧
    ((([0, 1, 2] : List Nat).length : Int) = 3 →
        0 ∈ (processRadius (fun _ _ => [0, 1, 2]) 1 3 1).outliers) :=
  processRadius_inlier_iff_count_gt_minK (fun _ _ => [0, 1, 2]) 1 3 1 0
    (by decide) (by decide) (by decide)

/-- C10: the two lists produced by processStatistical are deterministically
ordered: inliers and outliers are each in strictly ascending point-index
order, because the final classification pass iterates sequentially over
0..N-1 after the parallel phase has completed. -/
theorem processStatistical_sorted
    (sqrtQ : ℚ → ℚ) (knnSqr : Nat → Nat → List ℚ) (m_meanK : Nat)
    (m_multiplier : ℚ) (np : Nat) :
    List.Sorted (· < ·)
        (processStatistical sqrtQ knnSqr m_meanK m_multiplier np).inliers ∧
    List.Sorted (· < ·)
        (processStatistical sqrtQ knnSqr m_meanK m_multiplier np).outliers :=
  classifyAll_sorted _ np

/-- C6: for every point and every K >= 1, the incremental local-mean update
of processStatistical, run over the K neighbour distances that remain after
excluding the self entry at position 0, yields exactly the arithmetic mean of
those K Euclidean distances. -/
theorem localMean_eq_arithmetic_mean (sqrtQ : ℚ → ℚ) (sqr_dists : List ℚ)
    (K : Nat) (_hK : 1 ≤ K) (hlen : sqr_dists.length = K + 1) :
    localMeanOfSqr sqrtQ sqr_dists
      = ((sqr_dists.drop 1).map sqrtQ).sum / (K : ℚ) := by
  unfold localMeanOfSqr localMean
  rw [localMean_foldl]
  have hlen2 : ((sqr_dists.drop 1).map sqrtQ).length = K := by
    simp [hlen]
  rw [hlen2]

/-- Witness for C6: K = 2 neighbours with squared distances 9 and 25 after
the self entry; the incremental update returns their arithmetic mean. -/
theorem localMean_eq_arithmetic_mean_witness :
    localMeanOfSqr id [0, 9, 25]
      = ((([0, 9, 25] : List ℚ).drop 1).map id).sum / ((2 : Nat) : ℚ) :=
  localMean_eq_arithmetic_mean id [0, 9, 25] 2 (by decide) (by decide)

/-- Comparison definition for C4, following the spec wording: the naive
two-pass mean of a list of values. -/
def naiveMean (xs : List ℚ) : ℚ :=
  xs.sum / (xs.length : ℚ)

/-- Comparison definition for C4, following the spec wording: the naive
two-pass sample variance with divisor n - 1. -/
def naiveSampleVariance (xs : List ℚ) : ℚ :=
  (xs.map (fun x => (x - naiveMean xs) ^ 2)).sum / ((xs.length : ℚ) - 1)

/-- C4: for every sequence of N >= 2 local-mean values, the online one-pass
global fold of processStatistical produces the same mean and the same sample
variance (divisor n-1) as the naive two-pass computation over the same
values; in exact rational arithmetic the equality is exact, which covers the
all-equal case (variance 0) and the single-extreme-outlier case. -/
theorem globalFold_eq_naive_two_pass (xs : List ℚ) (h2 : 2 ≤ xs.length) :
    (globalFold xs).M1 = naiveMean xs ∧ variance xs = naiveSampleVariance xs := by
  have hne : (xs.length : ℚ) ≠ 0 := by
    have hpos : 0 < xs.length := by omega
    exact_mod_cast hpos.ne'
  constructor
  · rw [globalFold_closed]
    rfl
  · unfold variance naiveSampleVariance naiveMean
    rw [globalFold_closed, sum_sq_sub]
    dsimp only
    congr 1
    field_simp
    ring

/-- Witness for C4: the values 1, 1, 4 have mean 2 and sample variance 3 by
both computations. -/
theorem globalFold_eq_naive_two_pass_witness :
    (globalFold [1, 1, 4]).M1 = naiveMean [1, 1, 4] ∧
    variance [1, 1, 4] = naiveSampleVariance [1, 1, 4] :=
  globalFold_eq_naive_two_pass [1, 1, 4] (by decide)

/-- Comparison definition for C5, following the spec wording of the claimed
update rule: n += 1, delta = x - M1, M1 += delta / n, then
M2 += delta * (x - M1) * (n - 1) where the M1 in the M2 update is the
already-updated mean. -/
def specGlobalStep (acc : GlobalAcc) (x : ℚ) : GlobalAcc :=
  let n : Nat := acc.n + 1
  let delta : ℚ := x - acc.M1
  let M1 : ℚ := acc.M1 + delta / (n : ℚ)
  { n := n, M1 := M1, M2 := acc.M2 + delta * (x - M1) * ((n : ℚ) - 1) }

/-- The fold of the spec-claimed update rule from n = 0, M1 = 0, M2 = 0. -/
def specGlobalFold (xs : List ℚ) : GlobalAcc :=
  xs.foldl specGlobalStep { n := 0, M1 := 0, M2 := 0 }

/-- Counterexample to C5: on the concrete values 0, 0, 3 the update rule as
written in the spec yields M2 = 12 while the code fold yields M2 = 6, so the
code does not follow that rule. -/
theorem specGlobalFold_ne_globalFold :
    (specGlobalFold [0, 0, 3]).M2 ≠ (globalFold [0, 0, 3]).M2 := by
  have h1 : (specGlobalFold [0, 0, 3]).M2 = 12 := by
    norm_num [specGlobalFold, specGlobalStep]
  have h2 : (globalFold [0, 0, 3]).M2 = 6 := by
    norm_num [globalFold, globalStep]
  rw [h1, h2]
  norm_num

/-- Amended update rule for C5: identical except that the M2 increment is
delta * (x - M1) with the updated M1, without the extra (n - 1) factor. -/
def amendedGlobalStep (acc : GlobalAcc) (x : ℚ) : GlobalAcc :=
  let n : Nat := acc.n + 1
  let delta : ℚ := x - acc.M1
  let M1 : ℚ := acc.M1 + delta / (n : ℚ)
  { n := n, M1 := M1, M2 := acc.M2 + delta * (x - M1) }

theorem amendedGlobalStep_eq_globalStep (acc : GlobalAcc) (x : ℚ) :
    amendedGlobalStep acc x = globalStep acc x := by
  unfold amendedGlobalStep globalStep
  have hne : ((acc.n : ℚ) + 1) ≠ 0 := by positivity
  ext
  · rfl
  · rfl
  · dsimp only
    push_cast
    field_simp
    ring

/-- C5 amended: the global-phase fold follows the rule n += 1,
delta = x - M1, M1 += delta / n, M2 += delta * (x - M1) with the
already-updated M1 and no (n - 1) factor, and afterwards
variance = M2 / (n - 1). -/
theorem globalFold_follows_amended_rule (xs : List ℚ) :
    xs.foldl amendedGlobalStep { n := 0, M1 := 0, M2 := 0 } = globalFold xs ∧
    variance xs = (globalFold xs).M2 / (((globalFold xs).n : ℚ) - 1) := by
  refine ⟨?_, rfl⟩
  have hfun : amendedGlobalStep = globalStep :=
    funext fun acc => funext fun x => amendedGlobalStep_eq_globalStep acc x
  rw [hfun, globalFold]

theorem statDistances_getD (sqrtQ : ℚ → ℚ) (knnSqr : Nat → Nat → List ℚ)
    (m_meanK np i : Nat) (hi : i < np) :
    (statDistances sqrtQ knnSqr m_meanK np).getD i 0
      = localMeanOfSqr sqrtQ (knnSqr i (m_meanK + 1)) := by
  unfold statDistances
  rw [List.getD_eq_getElem?_getD, List.getElem?_map, List.getElem?_range hi]
  rfl

/-- C3: in the statistical method, with threshold = globalMean +
multiplier * globalStdDev, every point i below N is classified as an inlier
iff its local mean is strictly below the threshold, and a local mean exactly
equal to the threshold makes it an outlier. -/
theorem processStatistical_inlier_iff_below_threshold
    (sqrtQ : ℚ → ℚ) (knnSqr : Nat → Nat → List ℚ) (m_meanK : Nat)
    (m_multiplier : ℚ) (np i : Nat) (hi : i < np) :
    (i ∈ (processStatistical sqrtQ knnSqr m_meanK m_multiplier np).inliers ↔
      localMeanOfSqr sqrtQ (knnSqr i (m_meanK + 1)) <
        threshold sqrtQ m_multiplier (statDistances sqrtQ knnSqr m_meanK np)) ∧
    (localMeanOfSqr sqrtQ (knnSqr i (m_meanK + 1)) =
        threshold sqrtQ m_multiplier (statDistances sqrtQ knnSqr m_meanK np) →
      i ∈ (processStatistical sqrtQ knnSqr m_meanK m_multiplier np).outliers) := by
  have hg := statDistances_getD sqrtQ knnSqr m_meanK np i hi
  constructor
  · simp only [processStatistical]
    rw [classifyAll_mem_inliers]
    simp only [hi, true_and, decide_eq_true_eq]
    rw [hg]
  · intro heq
    simp only [processStatistical]
    rw [classifyAll_mem_outliers]
    simp only [hi, true_and, decide_eq_false_iff_not, not_lt]
    rw [hg, heq]

/-- Witness for C3: two coincident neighbour structures make every local
mean 1 and zero variance, so the threshold equals the local mean of point 0,
which is therefore an outlier. -/
theorem processStatistical_inlier_iff_below_threshold_witness :
    (0 ∈ (processStatistical id (fun _ _ => [0, 1, 1]) 2 1 2).inliers ↔
      localMeanOfSqr id ((fun (_ : Nat) (_ : Nat) => ([0, 1, 1] : List ℚ)) 0 (2 + 1)) <
        threshold id 1 (statDistances id (fun _ _ => [0, 1, 1]) 2 2)) ∧
    (localMeanOfSqr id ((fun (_ : Nat) (_ : Nat) => ([0, 1, 1] : List ℚ)) 0 (2 + 1)) =
        threshold id 1 (statDistances id (fun _ _ => [0, 1, 1]) 2 2) →
      0 ∈ (processStatistical id (fun _ _ => [0, 1, 1]) 2 1 2).outliers) :=
  processStatistical_inlier_iff_below_threshold id (fun _ _ => [0, 1, 1]) 2 1 2 0
    (by decide)

/-! Lemmas about run on degenerate inputs. -/

theorem runIndices_single (view : List Nat) (m_class : Nat) (pred : Nat → Bool) :
    runIndices view m_class (classifyAll pred 1) = some view := by
  have hr1 : List.range 1 = [0] := rfl
  by_cases h : pred 0
  · have hcl : classifyAll pred 1 = { inliers := [0], outliers := [] } := by
      simp [classifyAll_eq, hr1, List.filter, h]
    rw [hcl]
    simp [runIndices]
  · have hcl : classifyAll pred 1 = { inliers := [], outliers := [0] } := by
      simp [classifyAll_eq, hr1, List.filter, h]
    rw [hcl]
    simp [runIndices]

theorem run_statistical_one_point (sqrtQ : ℚ → ℚ) (knnSqr : Nat → Nat → List ℚ)
    (radiusIds : Nat → ℚ → List Nat) (m_minK : Int) (m_radius : ℚ)
    (m_meanK : Nat) (m_multiplier : ℚ) (m_class : Nat) (view : List Nat)
    (hview : view.length = 1) :
    run sqrtQ knnSqr radiusIds "statistical" m_minK m_radius m_meanK
      m_multiplier m_class view = some view := by
  unfold run
  rw [if_neg (by omega), if_pos (by decide)]
  rw [hview]
  exact runIndices_single view m_class _

/-- Counterexample to C7: a concrete one-point view processed with the
statistical method. The global phase is neither skipped nor stopped by an
error: run completes and returns the view, while the count n folded over the
single local mean is 1, so the sample-variance division at line 221 is
performed with divisor n - 1 = 0 (NaN on doubles at runtime). -/
theorem statistical_one_point_reaches_zero_divisor :
    (((globalFold (statDistances id (fun _ _ => [0, 4]) 8 1)).n : ℚ) - 1 = 0) ∧
    run id (fun _ _ => [0, 4]) (fun _ _ => []) "statistical" 2 1 8 1 7 [5]
      = some [5] := by
  constructor
  · rw [globalFold_closed]
    norm_num [statDistances]
  · exact run_statistical_one_point id (fun _ _ => [0, 4]) (fun _ _ => []) 2 1 8 1 7
      [5] rfl

/-- C7 amended: the code guards only N = 0 (run returns an empty view set
before any classifier is invoked); for a one-point view the statistical
global phase executes with sample-variance divisor n - 1 = 0, no error is
signalled, and run completes, returning the input view unchanged. -/
theorem statistical_divisor_zero_at_one_point
    (sqrtQ : ℚ → ℚ) (knnSqr : Nat → Nat → List ℚ)
    (radiusIds : Nat → ℚ → List Nat) (m_minK : Int) (m_radius : ℚ)
    (m_meanK : Nat) (m_multiplier : ℚ) (m_class : Nat) (view : List Nat)
    (hview : view.length = 1) :
    (((globalFold (statDistances sqrtQ knnSqr m_meanK view.length)).n : ℚ) - 1
        = 0) ∧
    run sqrtQ knnSqr radiusIds "statistical" m_minK m_radius m_meanK
      m_multiplier m_class view = some view := by
  constructor
  · rw [globalFold_closed]
    simp [statDistances, hview]
  · exact run_statistical_one_point sqrtQ knnSqr radiusIds m_minK m_radius m_meanK
      m_multiplier m_class view hview

/-- Witness for the amended C7 at a concrete one-point view. -/
theorem statistical_divisor_zero_at_one_point_witness :
    (((globalFold (statDistances id (fun _ _ => [0, 9]) 4 ([6] : List Nat).length)).n : ℚ)
        - 1 = 0) ∧
    run id (fun _ _ => [0, 9]) (fun _ _ => []) "statistical" 2 1 4 2 7 [6]
      = some [6] :=
  statistical_divisor_zero_at_one_point id (fun _ _ => [0, 9]) (fun _ _ => [])
    2 1 4 2 7 [6] rfl

/-- C8: whenever the method name is unrecognized, or the computed partition
has an empty inlier list, or an empty outlier list, run returns the input
view completely unchanged as a singleton view set: no classification
attribute is mutated, and execution continues without a hard failure. -/
theorem run_passthrough_unchanged
    (sqrtQ : ℚ → ℚ) (knnSqr : Nat → Nat → List ℚ)
    (radiusIds : Nat → ℚ → List Nat) (m_method : String) (m_minK : Int)
    (m_radius : ℚ) (m_meanK : Nat) (m_multiplier : ℚ) (m_class : Nat)
    (view : List Nat) (hview : view.length ≠ 0) :
    (iequals m_method "statistical" = false → iequals m_method "radius" = false →
      run sqrtQ knnSqr radiusIds m_method m_minK m_radius m_meanK m_multiplier
        m_class view = some view) ∧
    (iequals m_method "statistical" = true →
      ((processStatistical sqrtQ knnSqr m_meanK m_multiplier view.length).inliers
          = [] ∨
       (processStatistical sqrtQ knnSqr m_meanK m_multiplier view.length).outliers
          = []) →
      run sqrtQ knnSqr radiusIds m_method m_minK m_radius m_meanK m_multiplier
        m_class view = some view) ∧
    (iequals m_method "radius" = true →
      ((processRadius radiusIds m_radius m_minK view.length).inliers = [] ∨
       (processRadius radiusIds m_radius m_minK view.length).outliers = []) →
      run sqrtQ knnSqr radiusIds m_method m_minK m_radius m_meanK m_multiplier
        m_class view = some view) := by
  refine ⟨?_, ?_, ?_⟩
  · intro h1 h2
    unfold run
    rw [if_neg hview, if_neg (by simp [h1]), if_neg (by simp [h2])]
  · intro h1 hor
    unfold run
    rw [if_neg hview, if_pos (by simp [h1])]
    unfold runIndices
    rcases hor with he | he
    · rw [if_pos he]
    · by_cases hin :
        (processStatistical sqrtQ knnSqr m_meanK m_multiplier view.length).inliers
          = []
      · rw [if_pos hin]
      · rw [if_neg hin, if_neg (by simp [he])]
  · intro h1 hor
    unfold run
    by_cases hstat : iequals m_method "statistical" = true
    · exfalso
      have e1 : m_method.data.map Char.toLower = ("radius").data.map Char.toLower := by
        simpa [iequals] using h1
      have e2 : m_method.data.map Char.toLower
          = ("statistical").data.map Char.toLower := by
        simpa [iequals] using hstat
      rw [e1] at e2
      exact absurd e2 (by decide)
    · rw [if_neg hview, if_neg (by simp [hstat]), if_pos (by simp [h1])]
      unfold runIndices
      rcases hor with he | he
      · rw [if_pos he]
      · by_cases hin :
          (processRadius radiusIds m_radius m_minK view.length).inliers = []
        · rw [if_pos hin]
        · rw [if_neg hin, if_neg (by simp [he])]

/-- C9: for an empty input view, run returns an empty view set that does not
contain the input view at all, for every method name, every configuration and
every oracle, so no classifier is invoked; the other non-mutating paths
instead return a set containing the unchanged input view. -/
theorem run_empty_view_returns_empty_set
    (sqrtQ : ℚ → ℚ) (knnSqr : Nat → Nat → List ℚ)
    (radiusIds : Nat → ℚ → List Nat) (m_method : String) (m_minK : Int)
    (m_radius : ℚ) (m_meanK : Nat) (m_multiplier : ℚ) (m_class : Nat)
    (view : List Nat) (hview : view.length = 0) :
    run sqrtQ knnSqr radiusIds m_method m_minK m_radius m_meanK m_multiplier
      m_class view = none := by
  unfold run
  rw [if_pos hview]

/-- Witness for C9: the empty view with the statistical method gives the
empty view set. -/
theorem run_empty_view_returns_empty_set_witness :
    run id (fun _ _ => []) (fun _ _ => []) "statistical" 2 1 8 2 7 [] = none :=
  run_empty_view_returns_empty_set id (fun _ _ => []) (fun _ _ => [])
    "statistical" 2 1 8 2 7 [] rfl

/-- Witness for C8 at a concrete one-point view; the first implication fires
because the method name foo is unrecognized. -/
theorem run_passthrough_unchanged_witness :
    (iequals "foo" "statistical" = false → iequals "foo" "radius" = false →
      run id (fun _ _ => []) (fun _ _ => []) "foo" 2 1 8 2 7 [9] = some [9]) ∧
    (iequals "foo" "statistical" = true →
      ((processStatistical id (fun _ _ => []) 8 2
          ([9] : List Nat).length).inliers = [] ∨
       (processStatistical id (fun _ _ => []) 8 2
          ([9] : List Nat).length).outliers = []) →
      run id (fun _ _ => []) (fun _ _ => []) "foo" 2 1 8 2 7 [9] = some [9]) ∧
    (iequals "foo" "radius" = true →
      ((processRadius (fun _ _ => []) 1 2 ([9] : List Nat).length).inliers = [] ∨
       (processRadius (fun _ _ => []) 1 2 ([9] : List Nat).length).outliers = []) →
      run id (fun _ _ => []) (fun _ _ => []) "foo" 2 1 8 2 7 [9] = some [9]) :=
  run_passthrough_unchanged id (fun _ _ => []) (fun _ _ => []) "foo" 2 1 8 2 7
    [9] (by decide)

end OutlierFilter
